import Mathlib

/-!
# Verification of the radio-browser client library

A shallow embedding of `src/lib.rs`: the `RadioStation` record, the
`RadioBrowserError` sum type, the `Cache` capability, the in-memory LRU
cache, and the `RadioBrowserClient::search_by_tag` / `fetch_stations`
pipeline, together with theorems about cache keys, cache hits, error
classification, LRU eviction and URL construction.

Machine integers: `limit : usize` is modelled as `Nat` (the code never
does arithmetic on it beyond decimal rendering, so no overflow is
involved); `votes : Option<i32>` is modelled as `Option Int`.
-/

set_option maxHeartbeats 1000000

/-! ## Definitions -/

/-- Decimal rendering of a digit value, `0 ↦ '0'`, …, `9 ↦ '9'`. -/
def natDigitChar (d : Nat) : Char :=
  Char.ofNat (48 + d)

/-- Fuel-indexed decimal rendering of a natural number, most significant
digit first.  Models what Rust's `format!("{}", n)` produces for a `usize`. -/
def decChars : Nat → Nat → List Char
  | 0, _ => []
  | fuel + 1, n =>
    if n < 10 then [natDigitChar n]
    else decChars fuel (n / 10) ++ [natDigitChar (n % 10)]

/-- Decimal rendering of a `usize` as a string (`format!("{}", n)`). -/
def natToDecimal (n : Nat) : String :=
  String.mk (decChars (n + 1) n)

/-- `RadioBrowserError` (lib.rs 8–15): `RequestError` wraps a transport-level
`reqwest::Error` (including body-read and JSON-decode failures, which reqwest
also reports as `reqwest::Error` and which `?` converts via `#[from]`);
`ApiError` carries the raw body text of a non-success response. -/
inductive RadioBrowserError : Type where
  | RequestError (detail : String)
  | ApiError (body : String)
deriving DecidableEq, Repr

/-- `RadioStation` (lib.rs 17–24). -/
structure RadioStation : Type where
  name : String
  url : String
  tags : Option String
  country : Option String
  votes : Option Int
deriving DecidableEq, Repr

/-- Modelled from the spec: the `lru` crate's `LruCache<String, Vec<RadioStation>>`
that `MemoryCache` (lib.rs 32–53) wraps behind a mutex — the crate is a
dependency whose source is not part of this repository.  Per §3/§4.1 of the
spec it is a fixed-capacity store whose entries are ordered by recency of
last access (most recent first here); `get` on a present key refreshes
recency, `set` stores/replaces at most-recent position and evicts the
least-recently-used entry when the capacity is exceeded; capacity 0 means
every insertion is evicted immediately. -/
structure LruCache : Type where
  capacity : Nat
  entries : List (String × List RadioStation)
deriving DecidableEq, Repr

/-- `lru::LruCache::new(capacity)` — the empty store. -/
def LruCache.new (capacity : Nat) : LruCache :=
  { capacity := capacity, entries := [] }

/-- `MemoryCache::new(capacity)` (lib.rs 36–42): a fresh LRU store. -/
def MemoryCache.new (capacity : Nat) : LruCache :=
  LruCache.new capacity

/-- `LruCache::get` (used by `MemoryCache::get`, lib.rs 46–48): look the key
up; on a hit, return the value and move the entry to most-recent position. -/
def LruCache.get (c : LruCache) (key : String) :
    Option (List RadioStation) × LruCache :=
  match c.entries.find? (fun e => e.1 == key) with
  | none => (none, c)
  | some e =>
    (some e.2,
     { c with entries := (key, e.2) :: c.entries.filter (fun x => !(x.1 == key)) })

/-- `LruCache::put` (used by `MemoryCache::set`, lib.rs 50–52): remove any
entry under the key, insert the new pair at most-recent position, and evict
the least-recently-used entry (the back) if the capacity is exceeded. -/
def LruCache.put (c : LruCache) (key : String) (value : List RadioStation) :
    LruCache :=
  let inserted := (key, value) :: c.entries.filter (fun x => !(x.1 == key))
  { c with entries := if c.capacity < inserted.length then inserted.dropLast else inserted }

/-- Well-formedness maintained by the store: the keys are pairwise distinct
and the number of entries is within the configured capacity. -/
def LruCache.WF (c : LruCache) : Prop :=
  (c.entries.map Prod.fst).Nodup ∧ c.entries.length ≤ c.capacity

/-- The `Cache` trait (lib.rs 26–30), as a record of operations over an
explicit store state `σ`: `get` may update recency (the Rust trait takes
`&self` but the in-memory store mutates behind its mutex), `set` stores. -/
structure CacheImpl (σ : Type) : Type where
  get : σ → String → Option (List RadioStation) × σ
  set : σ → String → List RadioStation → σ

/-- The `Cache` implementation backed by `MemoryCache` (lib.rs 44–53). -/
def memoryCacheImpl : CacheImpl LruCache :=
  { get := LruCache.get, set := LruCache.put }

/-- Outcome of the injected transport collaborator for one `GET`:
either a transport-level failure (`reqwest::Error` detail) or a response
with an HTTP status code and a body text. -/
inductive TransportOutcome : Type where
  | failure (detail : String)
  | response (status : Nat) (body : String)

/-- `reqwest::StatusCode::is_success()`: 2xx. -/
def statusIsSuccess (status : Nat) : Bool :=
  decide (200 ≤ status) && decide (status < 300)

/-- `RadioBrowserClient` (lib.rs 55–59): base URL plus the injected cache.
The HTTP transport and the serde JSON decoder are external collaborators and
are passed as function parameters where they are used. -/
structure RadioBrowserClient (σ : Type) : Type where
  base_url : String
  cache : CacheImpl σ

/-- The cache key `format!("search:{}:{}", tag, limit)` (lib.rs 80). -/
def cacheKey (tag : String) (limit : Nat) : String :=
  "search:" ++ tag ++ ":" ++ natToDecimal limit

/-- The request URL
`format!("{}/json/stations/search?tag={}&limit={}", base_url, tag, limit)`
(lib.rs 86). -/
def searchUrl (base_url tag : String) (limit : Nat) : String :=
  base_url ++ "/json/stations/search?tag=" ++ tag ++ "&limit=" ++ natToDecimal limit

/-- `RadioBrowserClient::fetch_stations` (lib.rs 93–102).  `transport` is the
injected HTTP collaborator; `decode` is serde's JSON decoding of the body
into `Vec<RadioStation>` (an external collaborator; its failure is a
`reqwest::Error`, which `?` converts into `RequestError`). -/
def fetchStations (transport : String → TransportOutcome)
    (decode : String → Except String (List RadioStation)) (url : String) :
    Except RadioBrowserError (List RadioStation) :=
  match transport url with
  | .failure detail => .error (.RequestError detail)
  | .response status body =>
    if statusIsSuccess status then
      match decode body with
      | .error detail => .error (.RequestError detail)
      | .ok stations => .ok stations
    else
      .error (.ApiError body)

/-- Observable effects of one `search_by_tag` call, in order: each network
fetch (with the exact URL handed to the transport) and each cache `set`. -/
inductive Event : Type where
  | fetch (url : String)
  | cacheSet (key : String)
deriving DecidableEq, Repr

/-- `RadioBrowserClient::search_by_tag` (lib.rs 79–91), returning the result,
the cache store state after the call, and the list of observable effects. -/
def searchByTag {σ : Type} (client : RadioBrowserClient σ)
    (transport : String → TransportOutcome)
    (decode : String → Except String (List RadioStation))
    (st : σ) (tag : String) (limit : Nat) :
    Except RadioBrowserError (List RadioStation) × σ × List Event :=
  let cache_key := cacheKey tag limit
  match client.cache.get st cache_key with
  | (some cached, st₁) => (.ok cached, st₁, [])
  | (none, st₁) =>
    let url := searchUrl client.base_url tag limit
    match fetchStations transport decode url with
    | .error e => (.error e, st₁, [.fetch url])
    | .ok stations =>
      (.ok stations, client.cache.set st₁ cache_key stations,
       [.fetch url, .cacheSet cache_key])

/-- One client-visible cache operation, for stating properties of arbitrary
operation sequences against the store. -/
inductive CacheOp : Type where
  | get (key : String)
  | set (key : String) (value : List RadioStation)

/-- Apply one operation to the store (dropping `get`'s returned value). -/
def LruCache.apply (c : LruCache) : CacheOp → LruCache
  | .get k => (c.get k).2
  | .set k v => c.put k v

/-- Run a sequence of operations against the store. -/
def LruCache.run (c : LruCache) (ops : List CacheOp) : LruCache :=
  ops.foldl LruCache.apply c

/-- The station used by `test_search_with_cache` (lib.rs 136–142). -/
def testStation : RadioStation :=
  { name := "Test Station", url := "http://test.com", tags := none,
    country := none, votes := some 100 }

/-- The result classifier used by `test_api_error` (lib.rs 184):
`matches!(result, Err(RadioBrowserError::ApiError(_)))`. -/
def matchesApiError : Except RadioBrowserError (List RadioStation) → Bool
  | .error (.ApiError _) => true
  | _ => false

/-- A store already holding the result for tag `"rock"`, limit `5`. -/
def rockHitState : LruCache :=
  { capacity := 2, entries := [(cacheKey "rock" 5, [testStation])] }

/-- A full capacity-1 store holding a single key. -/
def soloRockStore : LruCache :=
  { capacity := 1, entries := [("search:rock:5", [])] }

/-- A full capacity-2 store holding two keys, `"k1"` more recent. -/
def twoKeyStore : LruCache :=
  { capacity := 2, entries := [("k1", []), ("k2", [])] }

/-! ## Properties of the decimal rendering -/

theorem decChars_stable (n : Nat) : ∀ f₁ f₂, n < f₁ → n < f₂ →
    decChars f₁ n = decChars f₂ n := by
  induction n using Nat.strong_induction_on with
  | _ n ih =>
    intro f₁ f₂ h₁ h₂
    match f₁, f₂ with
    | g₁ + 1, g₂ + 1 =>
      by_cases hn : n < 10
      · simp [decChars, hn]
      · have hdiv : n / 10 < n := Nat.div_lt_self (by omega) (by omega)
        have := ih (n / 10) hdiv g₁ g₂ (by omega) (by omega)
        simp [decChars, hn, this]

/-- The digit-list of `n` for `n ≥ 10` peels off the last digit. -/
theorem decChars_step (n : Nat) (h : ¬ n < 10) :
    decChars (n + 1) n = decChars (n / 10 + 1) (n / 10) ++ [natDigitChar (n % 10)] := by
  have hdiv : n / 10 < n := Nat.div_lt_self (by omega) (by omega)
  show (if n < 10 then [natDigitChar n]
    else decChars n (n / 10) ++ [natDigitChar (n % 10)]) = _
  rw [if_neg h, decChars_stable (n / 10) n (n / 10 + 1) (by omega) (by omega)]

theorem decChars_ne_nil (n : Nat) : decChars (n + 1) n ≠ [] := by
  by_cases hn : n < 10
  · simp [decChars, hn]
  · rw [decChars_step n hn]
    simp

theorem natDigitChar_inj {d₁ d₂ : Nat} (h₁ : d₁ < 10) (h₂ : d₂ < 10)
    (h : natDigitChar d₁ = natDigitChar d₂) : d₁ = d₂ := by
  have key : ∀ a b : Fin 10, natDigitChar a = natDigitChar b → a = b := by decide
  have := key ⟨d₁, h₁⟩ ⟨d₂, h₂⟩ h
  exact congrArg Fin.val this

theorem natDigitChar_ne_colon {d : Nat} (h : d < 10) : natDigitChar d ≠ ':' := by
  have key : ∀ a : Fin 10, natDigitChar a ≠ ':' := by decide
  exact key ⟨d, h⟩

theorem decChars_no_colon (n : Nat) : ∀ c ∈ decChars (n + 1) n, c ≠ ':' := by
  induction n using Nat.strong_induction_on with
  | _ n ih =>
    intro c hc
    by_cases hn : n < 10
    · simp [decChars, hn] at hc
      exact hc ▸ natDigitChar_ne_colon hn
    · rw [decChars_step n hn] at hc
      rcases List.mem_append.mp hc with h | h
      · exact ih (n / 10) (Nat.div_lt_self (by omega) (by omega)) c h
      · simp at h
        exact h ▸ natDigitChar_ne_colon (Nat.mod_lt n (by omega))

theorem decChars_inj (n : Nat) : ∀ m, decChars (n + 1) n = decChars (m + 1) m → n = m := by
  induction n using Nat.strong_induction_on with
  | _ n ih =>
    intro m h
    by_cases hn : n < 10 <;> by_cases hm : m < 10
    · simp [decChars, hn, hm] at h
      exact natDigitChar_inj hn hm h
    · have h1 : decChars (n + 1) n = [natDigitChar n] := by simp [decChars, hn]
      rw [h1, decChars_step m hm] at h
      have hlen := congrArg List.length h
      rw [List.length_append] at hlen
      simp only [List.length_singleton] at hlen
      have hnil : decChars (m / 10 + 1) (m / 10) = [] :=
        List.length_eq_zero.mp (by omega)
      exact absurd hnil (decChars_ne_nil (m / 10))
    · have h1 : decChars (m + 1) m = [natDigitChar m] := by simp [decChars, hm]
      rw [h1, decChars_step n hn] at h
      have hlen := congrArg List.length h
      rw [List.length_append] at hlen
      simp only [List.length_singleton] at hlen
      have hnil : decChars (n / 10 + 1) (n / 10) = [] :=
        List.length_eq_zero.mp (by omega)
      exact absurd hnil (decChars_ne_nil (n / 10))
    · rw [decChars_step n hn, decChars_step m hm] at h
      have hrev := congrArg List.reverse h
      simp at hrev
      have hmod : n % 10 = m % 10 :=
        natDigitChar_inj (Nat.mod_lt n (by omega)) (Nat.mod_lt m (by omega)) hrev.1
      have hdivlist : decChars (n / 10 + 1) (n / 10) = decChars (m / 10 + 1) (m / 10) := by
        have := congrArg List.reverse hrev.2
        simpa using this
      have hdiv : n / 10 = m / 10 :=
        ih (n / 10) (Nat.div_lt_self (by omega) (by omega)) (m / 10) hdivlist
      omega

theorem natToDecimal_inj {n m : Nat} (h : natToDecimal n = natToDecimal m) : n = m := by
  have hdata : decChars (n + 1) n = decChars (m + 1) m := congrArg String.data h
  exact decChars_inj n m hdata

theorem natToDecimal_no_colon (n : Nat) : ∀ c ∈ (natToDecimal n).data, c ≠ ':' :=
  decChars_no_colon n

/-- Splitting around a marker character: if the parts before the marker are
marker-free, the decomposition `u ++ marker :: v` is unique (used below on
reversed lists, where the decimal suffix becomes a marker-free head). -/
theorem append_marker_split {α : Type} {c : α} :
    ∀ (u : List α) (v : List α) (u' : List α) (v' : List α),
      c ∉ u → c ∉ u' → u ++ c :: v = u' ++ c :: v' → u = u' ∧ v = v' := by
  intro u
  induction u with
  | nil =>
    intro v u' v' _ hu' h
    cases u' with
    | nil =>
      simp at h
      exact ⟨rfl, h⟩
    | cons b u'' =>
      simp at h
      exact absurd (h.1 ▸ List.mem_cons_self b u'') (h.1 ▸ hu')
  | cons a u₁ ih =>
    intro v u' v' hu hu' h
    cases u' with
    | nil =>
      simp at h
      exact absurd (h.1 ▸ List.mem_cons_self a u₁) (h.1 ▸ hu)
    | cons b u₁' =>
      simp at h
      obtain ⟨hab, hrest⟩ := h
      have := ih v u₁' v' (fun hmem => hu (List.mem_cons_of_mem a hmem))
        (fun hmem => hu' (hab ▸ List.mem_cons_of_mem b hmem)) hrest
      exact ⟨by rw [hab, this.1], this.2⟩

/-! ## Lemmas about the LRU store -/

theorem LruCache.new_WF (capacity : Nat) : (LruCache.new capacity).WF := by
  constructor <;> simp [LruCache.new]

theorem key_not_mem_filter (l : List (String × List RadioStation)) (k : String) :
    k ∉ (l.filter (fun x => !(x.1 == k))).map Prod.fst := by
  intro hmem
  obtain ⟨e, he, hek⟩ := List.mem_map.mp hmem
  have := (List.mem_filter.mp he).2
  simp [hek] at this

theorem filter_keys_nodup {l : List (String × List RadioStation)} {k : String}
    (h : (l.map Prod.fst).Nodup) :
    ((l.filter (fun x => !(x.1 == k))).map Prod.fst).Nodup :=
  h.sublist ((List.filter_sublist l).map Prod.fst)

theorem LruCache.get_miss_eq {c : LruCache} {k : String}
    (h : (c.get k).1 = none) : c.get k = (none, c) := by
  unfold LruCache.get at h ⊢
  cases hf : c.entries.find? (fun e => e.1 == k) with
  | none => simp [hf]
  | some e => rw [hf] at h; simp at h

theorem LruCache.get_hit_eq {c : LruCache} {k : String}
    {e : String × List RadioStation}
    (hf : c.entries.find? (fun x => x.1 == k) = some e) :
    c.get k =
      (some e.2,
       { c with entries := (k, e.2) :: c.entries.filter (fun x => !(x.1 == k)) }) := by
  unfold LruCache.get
  rw [hf]

theorem LruCache.get_capacity (c : LruCache) (k : String) :
    ((c.get k).2).capacity = c.capacity := by
  unfold LruCache.get
  cases hf : c.entries.find? (fun e => e.1 == k) <;> simp [hf]

theorem LruCache.put_capacity (c : LruCache) (k : String) (v : List RadioStation) :
    (c.put k v).capacity = c.capacity := by
  unfold LruCache.put
  simp

theorem LruCache.put_entries (c : LruCache) (k : String) (v : List RadioStation) :
    (c.put k v).entries =
      if c.capacity < (c.entries.filter (fun x => !(x.1 == k))).length + 1
      then ((k, v) :: c.entries.filter (fun x => !(x.1 == k))).dropLast
      else (k, v) :: c.entries.filter (fun x => !(x.1 == k)) := rfl

theorem LruCache.put_head {c : LruCache} (k : String) (v : List RadioStation)
    (hcap : 1 ≤ c.capacity) :
    ∃ tl, (c.put k v).entries = (k, v) :: tl := by
  cases hr : c.entries.filter (fun x => !(x.1 == k)) with
  | nil =>
    rw [LruCache.put_entries, hr]
    rw [if_neg (by simp only [List.length_nil]; omega)]
    exact ⟨[], rfl⟩
  | cons b t =>
    rw [LruCache.put_entries, hr]
    by_cases hlen : c.capacity < (b :: t).length + 1
    · rw [if_pos hlen]
      exact ⟨(b :: t).dropLast, List.dropLast_cons₂⟩
    · rw [if_neg hlen]
      exact ⟨b :: t, rfl⟩

theorem LruCache.get_put_fst {c : LruCache} (k : String) (v : List RadioStation)
    (hcap : 1 ≤ c.capacity) : ((c.put k v).get k).1 = some v := by
  obtain ⟨tl, htl⟩ := LruCache.put_head k v hcap (c := c)
  unfold LruCache.get
  rw [htl, List.find?_cons_of_pos _ (by simp)]

theorem LruCache.get_WF {c : LruCache} (k : String) (h : c.WF) : ((c.get k).2).WF := by
  cases hf : c.entries.find? (fun e => e.1 == k) with
  | none =>
    have : c.get k = (none, c) := by unfold LruCache.get; simp [hf]
    rw [this]
    exact h
  | some e =>
    rw [LruCache.get_hit_eq hf]
    have hmem : e ∈ c.entries := List.mem_of_find?_eq_some hf
    have hpred : (fun x => !(x.1 == k)) e = false := by
      have := List.find?_some hf
      simp_all
    constructor
    · refine List.nodup_cons.mpr ⟨key_not_mem_filter c.entries k, filter_keys_nodup h.1⟩
    · have hlt : (c.entries.filter (fun x => !(x.1 == k))).length < c.entries.length :=
        List.length_filter_lt_length_iff_exists.mpr ⟨e, hmem, by simp [hpred]⟩
      have := h.2
      simp only [List.length_cons]
      omega

theorem LruCache.put_WF {c : LruCache} (k : String) (v : List RadioStation)
    (h : c.WF) : (c.put k v).WF := by
  have hnodup : (((k, v) :: c.entries.filter (fun x => !(x.1 == k))).map Prod.fst).Nodup :=
    List.nodup_cons.mpr ⟨key_not_mem_filter c.entries k, filter_keys_nodup h.1⟩
  have hlen : (c.entries.filter (fun x => !(x.1 == k))).length ≤ c.entries.length :=
    List.length_filter_le _ _
  have hc2 := h.2
  constructor
  · rw [LruCache.put_entries]
    by_cases hc : c.capacity < (c.entries.filter (fun x => !(x.1 == k))).length + 1
    · rw [if_pos hc]
      exact hnodup.sublist ((List.dropLast_sublist _).map Prod.fst)
    · rw [if_neg hc]
      exact hnodup
  · rw [LruCache.put_entries, LruCache.put_capacity]
    by_cases hc : c.capacity < (c.entries.filter (fun x => !(x.1 == k))).length + 1
    · rw [if_pos hc]
      simp only [List.length_dropLast, List.length_cons]
      omega
    · rw [if_neg hc]
      simp only [List.length_cons]
      omega

/-- A full store receiving a fresh key evicts exactly the least-recently-used
entry (the back of the recency list): the new entry goes to the front and
only the last entry disappears. -/
theorem LruCache.put_full_fresh {c : LruCache} (k : String) (v : List RadioStation)
    (hfull : c.entries.length = c.capacity) (hpos : 0 < c.capacity)
    (hfresh : ∀ e ∈ c.entries, e.1 ≠ k) :
    (c.put k v).entries = (k, v) :: c.entries.dropLast := by
  have hfil : c.entries.filter (fun x => !(x.1 == k)) = c.entries :=
    List.filter_eq_self.mpr (fun e he => by simp [hfresh e he])
  rw [LruCache.put_entries, hfil, if_pos (by omega)]
  cases hE : c.entries with
  | nil =>
    rw [hE] at hfull
    simp at hfull
    omega
  | cons a t => exact List.dropLast_cons₂

/-- A `get` on a present key followed by an insertion of a fresh key never
evicts the key just accessed, provided at least one other entry is present. -/
theorem LruCache.get_then_put_keeps {c : LruCache} {ka : String}
    {w : List RadioStation} (hWF : c.WF) (hhit : (c.get ka).1 = some w)
    (hlen : 2 ≤ c.entries.length) (knew : String) (v : List RadioStation)
    (hne : knew ≠ ka) (hfresh : knew ∉ c.entries.map Prod.fst) :
    ka ∈ ((((c.get ka).2).put knew v).entries.map Prod.fst) := by
  cases hf : c.entries.find? (fun x => x.1 == ka) with
  | none =>
    rw [LruCache.get] at hhit
    rw [hf] at hhit
    simp at hhit
  | some e =>
    rw [LruCache.get_hit_eq hf]
    cases hr : c.entries.filter (fun x => !(x.1 == ka)) with
    | nil =>
      exfalso
      have hall := List.filter_eq_nil_iff.mp hr
      cases hE : c.entries with
      | nil => rw [hE] at hlen; simp at hlen
      | cons e₁ rest =>
        cases hR : rest with
        | nil => rw [hE, hR] at hlen; simp at hlen
        | cons e₂ tl =>
          rw [hE, hR] at hall
          have h₁ : e₁.1 = ka := by simpa using hall e₁ (by simp)
          have h₂ : e₂.1 = ka := by simpa using hall e₂ (by simp)
          have hnd := hWF.1
          rw [hE, hR] at hnd
          simp only [List.map_cons, List.nodup_cons] at hnd
          exact hnd.1 (by rw [h₁, h₂]; exact List.mem_cons_self _ _)
    | cons b t =>
      have hkeysb : ∀ x ∈ b :: t, x.1 ≠ knew := by
        intro x hx
        have hxc : x ∈ c.entries := List.mem_of_mem_filter (hr ▸ hx)
        intro hxk
        exact hfresh (List.mem_map.mpr ⟨x, hxc, hxk⟩)
      have hfil₂ :
          ((ka, e.2) :: b :: t).filter (fun x => !(x.1 == knew)) =
            (ka, e.2) :: b :: t := by
        refine List.filter_eq_self.mpr ?_
        intro x hx
        rcases List.mem_cons.mp hx with hx | hx
        · rw [hx]
          simp
          exact fun hcontr => hne hcontr.symm
        · simp
          exact hkeysb x hx
      rw [LruCache.put_entries]
      simp only [hr, hfil₂]
      split
      · rw [List.dropLast_cons₂, List.dropLast_cons₂]
        simp
      · simp

theorem LruCache.apply_WF {c : LruCache} (op : CacheOp) (h : c.WF) :
    (c.apply op).WF := by
  cases op with
  | get k => exact LruCache.get_WF k h
  | set k v => exact LruCache.put_WF k v h

theorem LruCache.run_WF {c : LruCache} (ops : List CacheOp) (h : c.WF) :
    (c.run ops).WF := by
  induction ops generalizing c with
  | nil => exact h
  | cons op rest ih => exact ih (LruCache.apply_WF op h)

theorem LruCache.apply_capacity (c : LruCache) (op : CacheOp) :
    (c.apply op).capacity = c.capacity := by
  cases op with
  | get k => exact LruCache.get_capacity c k
  | set k v => exact LruCache.put_capacity c k v

/-- Running a sequence of operations never changes the configured capacity. -/
theorem LruCache.run_capacity (c : LruCache) (ops : List CacheOp) :
    (c.run ops).capacity = c.capacity := by
  induction ops generalizing c with
  | nil => rfl
  | cons op rest ih =>
    show ((c.apply op).run rest).capacity = c.capacity
    rw [ih, LruCache.apply_capacity]

/-- With capacity 0 every store state reached from empty stays empty. -/
theorem LruCache.apply_zero_empty {c : LruCache} (op : CacheOp)
    (hcap : c.capacity = 0) (hemp : c.entries = []) :
    (c.apply op).entries = [] := by
  cases op with
  | get k =>
    show ((c.get k).2).entries = []
    unfold LruCache.get
    rw [hemp]
    simp
    exact hemp
  | set k v =>
    show (c.put k v).entries = []
    rw [LruCache.put_entries, hemp]
    simp [hcap]

/-! ## Lemmas about the fetch path -/

theorem fetchStations_failure (transport : String → TransportOutcome)
    (decode : String → Except String (List RadioStation)) (url : String)
    (d : String) (h : transport url = .failure d) :
    fetchStations transport decode url = .error (.RequestError d) := by
  unfold fetchStations
  rw [h]

theorem fetchStations_api_error (transport : String → TransportOutcome)
    (decode : String → Except String (List RadioStation)) (url : String)
    (status : Nat) (body : String) (h : transport url = .response status body)
    (hs : statusIsSuccess status = false) :
    fetchStations transport decode url = .error (.ApiError body) := by
  unfold fetchStations
  simp only [h]
  rw [if_neg (by simp [hs])]

theorem fetchStations_decode_error (transport : String → TransportOutcome)
    (decode : String → Except String (List RadioStation)) (url : String)
    (status : Nat) (body : String) (d : String)
    (h : transport url = .response status body)
    (hs : statusIsSuccess status = true) (hd : decode body = .error d) :
    fetchStations transport decode url = .error (.RequestError d) := by
  unfold fetchStations
  simp only [h]
  rw [if_pos hs, hd]

theorem fetchStations_ok (transport : String → TransportOutcome)
    (decode : String → Except String (List RadioStation)) (url : String)
    (status : Nat) (body : String) (stations : List RadioStation)
    (h : transport url = .response status body)
    (hs : statusIsSuccess status = true) (hd : decode body = .ok stations) :
    fetchStations transport decode url = .ok stations := by
  unfold fetchStations
  simp only [h]
  rw [if_pos hs, hd]

theorem searchByTag_hit {σ : Type} (client : RadioBrowserClient σ)
    (transport : String → TransportOutcome)
    (decode : String → Except String (List RadioStation)) (st : σ)
    (tag : String) (limit : Nat) (v : List RadioStation)
    (h : (client.cache.get st (cacheKey tag limit)).1 = some v) :
    searchByTag client transport decode st tag limit =
      (.ok v, (client.cache.get st (cacheKey tag limit)).2, []) := by
  obtain ⟨st₂, hp⟩ :
      ∃ st₂, client.cache.get st (cacheKey tag limit) = (some v, st₂) :=
    ⟨(client.cache.get st (cacheKey tag limit)).2, by rw [← h]⟩
  simp only [searchByTag]
  rw [hp]

theorem searchByTag_miss_error {σ : Type} (client : RadioBrowserClient σ)
    (transport : String → TransportOutcome)
    (decode : String → Except String (List RadioStation)) (st : σ)
    (tag : String) (limit : Nat) (e : RadioBrowserError)
    (h : (client.cache.get st (cacheKey tag limit)).1 = none)
    (hf : fetchStations transport decode (searchUrl client.base_url tag limit) =
      .error e) :
    searchByTag client transport decode st tag limit =
      (.error e, (client.cache.get st (cacheKey tag limit)).2,
       [.fetch (searchUrl client.base_url tag limit)]) := by
  obtain ⟨st₂, hp⟩ :
      ∃ st₂, client.cache.get st (cacheKey tag limit) = (none, st₂) :=
    ⟨(client.cache.get st (cacheKey tag limit)).2, by rw [← h]⟩
  simp only [searchByTag]
  rw [hp, hf]

theorem searchByTag_miss_ok {σ : Type} (client : RadioBrowserClient σ)
    (transport : String → TransportOutcome)
    (decode : String → Except String (List RadioStation)) (st : σ)
    (tag : String) (limit : Nat) (stations : List RadioStation)
    (h : (client.cache.get st (cacheKey tag limit)).1 = none)
    (hf : fetchStations transport decode (searchUrl client.base_url tag limit) =
      .ok stations) :
    searchByTag client transport decode st tag limit =
      (.ok stations,
       client.cache.set (client.cache.get st (cacheKey tag limit)).2
         (cacheKey tag limit) stations,
       [.fetch (searchUrl client.base_url tag limit),
        .cacheSet (cacheKey tag limit)]) := by
  obtain ⟨st₂, hp⟩ :
      ∃ st₂, client.cache.get st (cacheKey tag limit) = (none, st₂) :=
    ⟨(client.cache.get st (cacheKey tag limit)).2, by rw [← h]⟩
  simp only [searchByTag]
  rw [hp, hf]

/-! ## The cache key is injective -/

theorem cacheKey_data (tag : String) (limit : Nat) :
    (cacheKey tag limit).data =
      "search:".data ++ (tag.data ++ (':' :: (natToDecimal limit).data)) := by
  have hcolon : (":" : String).data = [':'] := rfl
  simp [cacheKey, hcolon]

theorem cacheKey_inj {t₁ t₂ : String} {l₁ l₂ : Nat}
    (h : cacheKey t₁ l₁ = cacheKey t₂ l₂) : t₁ = t₂ ∧ l₁ = l₂ := by
  have hd := congrArg String.data h
  rw [cacheKey_data, cacheKey_data] at hd
  have hd₂ := List.append_cancel_left hd
  have hrev := congrArg List.reverse hd₂
  simp only [List.reverse_append, List.reverse_cons, List.append_assoc,
    List.singleton_append] at hrev
  have hnc₁ : ':' ∉ (natToDecimal l₁).data.reverse := by
    intro hmem
    exact natToDecimal_no_colon l₁ ':' (List.mem_reverse.mp hmem) rfl
  have hnc₂ : ':' ∉ (natToDecimal l₂).data.reverse := by
    intro hmem
    exact natToDecimal_no_colon l₂ ':' (List.mem_reverse.mp hmem) rfl
  obtain ⟨hdec, htag⟩ := append_marker_split _ _ _ _ hnc₁ hnc₂ hrev
  have htag' : t₁.data = t₂.data := by
    have := congrArg List.reverse htag
    simpa using this
  have hdec' : (natToDecimal l₁).data = (natToDecimal l₂).data := by
    have := congrArg List.reverse hdec
    simpa using this
  exact ⟨String.ext htag', decChars_inj l₁ l₂ hdec'⟩

/-! ## Claims -/

/-- C1: if the cache's `get` on the key `search:<tag>:<limit>` returns a
present value `v`, then `search_by_tag` returns `Ok v` immediately: the
transport collaborator is never invoked and the cache's `set` is never
called (the effect list of the call is empty), for every cache
implementation, transport and decoder. -/
theorem search_by_tag_cache_hit_short_circuit {σ : Type}
    (client : RadioBrowserClient σ) (transport : String → TransportOutcome)
    (decode : String → Except String (List RadioStation)) (st : σ)
    (tag : String) (limit : Nat) (v : List RadioStation)
    (h : (client.cache.get st (cacheKey tag limit)).1 = some v) :
    searchByTag client transport decode st tag limit =
      (.ok v, (client.cache.get st (cacheKey tag limit)).2, []) :=
  searchByTag_hit client transport decode st tag limit v h

/-- C1 witness: a concrete in-memory store holding the key for
(`"rock"`, 5) short-circuits even against a failing transport. -/
theorem search_by_tag_cache_hit_short_circuit_witness :
    (memoryCacheImpl.get rockHitState (cacheKey "rock" 5)).1 = some [testStation] ∧
    searchByTag { base_url := "http://x", cache := memoryCacheImpl }
        (fun _ => .failure "down") (fun _ => .error "bad") rockHitState "rock" 5 =
      (.ok [testStation],
       (memoryCacheImpl.get rockHitState (cacheKey "rock" 5)).2, []) :=
  ⟨by decide,
   search_by_tag_cache_hit_short_circuit
     { base_url := "http://x", cache := memoryCacheImpl }
     (fun _ => .failure "down") (fun _ => .error "bad") rockHitState "rock" 5
     [testStation] (by decide)⟩

/-- C2 counterexample: a successful-status (200) response whose body fails
to decode makes `search_by_tag` return the `RequestError` variant (the
decode failure is a `reqwest::Error`, converted by `?` via `#[from]` at
lib.rs 100 and 8–11), not the `ApiError` variant the claim names. -/
theorem decode_failure_request_error_cex :
    (searchByTag { base_url := "http://mock", cache := memoryCacheImpl }
        (fun _ => .response 200 "not json")
        (fun _ => .error "error decoding response body")
        (MemoryCache.new 10) "test" 1).1 =
      .error (.RequestError "error decoding response body") ∧
    matchesApiError
      (searchByTag { base_url := "http://mock", cache := memoryCacheImpl }
        (fun _ => .response 200 "not json")
        (fun _ => .error "error decoding response body")
        (MemoryCache.new 10) "test" 1).1 = false :=
  ⟨rfl, rfl⟩

/-- C2 (amended): for every response whose HTTP status is a success but
whose body fails to decode into the expected station-list shape,
`search_by_tag` returns the `RequestError` (transport-error) variant
wrapping the decoder's failure detail, not `ApiError`. -/
theorem decode_failure_request_error {σ : Type}
    (client : RadioBrowserClient σ) (transport : String → TransportOutcome)
    (decode : String → Except String (List RadioStation)) (st : σ)
    (tag : String) (limit : Nat) (status : Nat) (body d : String)
    (hmiss : (client.cache.get st (cacheKey tag limit)).1 = none)
    (ht : transport (searchUrl client.base_url tag limit) = .response status body)
    (hs : statusIsSuccess status = true)
    (hd : decode body = .error d) :
    (searchByTag client transport decode st tag limit).1 =
      .error (.RequestError d) := by
  rw [searchByTag_miss_error client transport decode st tag limit
    (.RequestError d) hmiss
    (fetchStations_decode_error transport decode _ status body d ht hs hd)]

/-- C2 witness: the amended theorem applied to a concrete 200-status
response with an undecodable body. -/
theorem decode_failure_request_error_witness :
    (memoryCacheImpl.get (MemoryCache.new 10) (cacheKey "test" 1)).1 = none ∧
    (searchByTag { base_url := "http://mock", cache := memoryCacheImpl }
        (fun _ => .response 200 "not json")
        (fun _ => .error "error decoding response body")
        (MemoryCache.new 10) "test" 1).1 =
      .error (.RequestError "error decoding response body") :=
  ⟨by decide,
   decode_failure_request_error
     { base_url := "http://mock", cache := memoryCacheImpl }
     (fun _ => .response 200 "not json")
     (fun _ => .error "error decoding response body")
     (MemoryCache.new 10) "test" 1 200 "not json" "error decoding response body"
     (by decide) rfl (by decide) rfl⟩

/-- C3: on a cache miss, a transport response with a non-success status
makes `search_by_tag` return `ApiError` carrying the raw response body
text; and a 200 response whose body decodes to a single station yields
exactly that one-element result. -/
theorem status_classification {σ : Type} :
    (∀ (client : RadioBrowserClient σ) (transport : String → TransportOutcome)
        (decode : String → Except String (List RadioStation)) (st : σ)
        (tag : String) (limit status : Nat) (body : String),
      (client.cache.get st (cacheKey tag limit)).1 = none →
      transport (searchUrl client.base_url tag limit) = .response status body →
      statusIsSuccess status = false →
      (searchByTag client transport decode st tag limit).1 =
        .error (.ApiError body)) ∧
    (∀ (client : RadioBrowserClient σ) (transport : String → TransportOutcome)
        (decode : String → Except String (List RadioStation)) (st : σ)
        (tag : String) (limit : Nat) (body : String) (s : RadioStation),
      (client.cache.get st (cacheKey tag limit)).1 = none →
      transport (searchUrl client.base_url tag limit) = .response 200 body →
      decode body = .ok [s] →
      (searchByTag client transport decode st tag limit).1 = .ok [s]) := by
  constructor
  · intro client transport decode st tag limit status body hmiss ht hs
    rw [searchByTag_miss_error client transport decode st tag limit
      (.ApiError body) hmiss
      (fetchStations_api_error transport decode _ status body ht hs)]
  · intro client transport decode st tag limit body s hmiss ht hd
    rw [searchByTag_miss_ok client transport decode st tag limit [s] hmiss
      (fetchStations_ok transport decode _ 200 body [s] ht (by decide) hd)]

/-- C3 witness: status 500 with body `"server error"` yields
`ApiError "server error"` (the scenario of `test_api_error`, lib.rs
166–186), and a 200 response decoding to the single test station yields
exactly that station (the scenario of `test_search_with_cache`). -/
theorem status_classification_witness :
    (searchByTag { base_url := "http://mock", cache := memoryCacheImpl }
        (fun _ => .response 500 "server error") (fun _ => .error "bad")
        (MemoryCache.new 10) "test" 1).1 = .error (.ApiError "server error") ∧
    (searchByTag { base_url := "http://mock", cache := memoryCacheImpl }
        (fun _ => .response 200 "[\x7bjson\x7d]") (fun _ => .ok [testStation])
        (MemoryCache.new 10) "test" 1).1 = .ok [testStation] :=
  ⟨(status_classification (σ := LruCache)).1
     { base_url := "http://mock", cache := memoryCacheImpl }
     (fun _ => .response 500 "server error") (fun _ => .error "bad")
     (MemoryCache.new 10) "test" 1 500 "server error" (by decide) rfl (by decide),
   (status_classification (σ := LruCache)).2
     { base_url := "http://mock", cache := memoryCacheImpl }
     (fun _ => .response 200 "[\x7bjson\x7d]") (fun _ => .ok [testStation])
     (MemoryCache.new 10) "test" 1 "[\x7bjson\x7d]" testStation (by decide) rfl rfl⟩

/-- C4: the cache key is the deterministic composition
`search:<tag>:<limit>`: equal (tag, limit) pairs give equal keys,
different pairs never give the same key (full injectivity), and in
particular (`"rock"`, 5) and (`"rock"`, 6) differ. -/
theorem cache_key_deterministic_injective :
    (∀ (t₁ : String) (l₁ : Nat) (t₂ : String) (l₂ : Nat),
      t₁ = t₂ → l₁ = l₂ → cacheKey t₁ l₁ = cacheKey t₂ l₂) ∧
    (∀ (t₁ : String) (l₁ : Nat) (t₂ : String) (l₂ : Nat),
      cacheKey t₁ l₁ = cacheKey t₂ l₂ → t₁ = t₂ ∧ l₁ = l₂) ∧
    cacheKey "rock" 5 ≠ cacheKey "rock" 6 := by
  refine ⟨?_, ?_, ?_⟩
  · intro t₁ l₁ t₂ l₂ ht hl
    rw [ht, hl]
  · intro t₁ l₁ t₂ l₂ h
    exact cacheKey_inj h
  · decide

/-- C4 witness: determinism and injectivity applied at concrete
(tag, limit) pairs. -/
theorem cache_key_deterministic_injective_witness :
    cacheKey "rock" 5 = cacheKey "rock" 5 ∧ ("jazz" = "jazz" ∧ 7 = 7) :=
  ⟨cache_key_deterministic_injective.1 "rock" 5 "rock" 5 rfl rfl,
   cache_key_deterministic_injective.2.1 "jazz" 7 "jazz" 7 (by decide)⟩

/-- C5: on a cache miss whose fetch fails (transport failure, non-success
status, or decode failure), `search_by_tag` returns that error and the
in-memory cache state is unchanged: no `set` occurs (the only effect is
the fetch) and the store is exactly what it was. -/
theorem fetch_failure_propagates_cache_unchanged (base : String)
    (transport : String → TransportOutcome)
    (decode : String → Except String (List RadioStation)) (st : LruCache)
    (tag : String) (limit : Nat) (e : RadioBrowserError)
    (hmiss : (st.get (cacheKey tag limit)).1 = none)
    (hf : fetchStations transport decode (searchUrl base tag limit) = .error e) :
    searchByTag { base_url := base, cache := memoryCacheImpl }
        transport decode st tag limit =
      (.error e, st, [.fetch (searchUrl base tag limit)]) := by
  rw [searchByTag_miss_error { base_url := base, cache := memoryCacheImpl }
    transport decode st tag limit e hmiss hf]
  have h2 : ({ base_url := base, cache := memoryCacheImpl } :
      RadioBrowserClient LruCache).cache.get st (cacheKey tag limit) =
      (none, st) := LruCache.get_miss_eq hmiss
  rw [h2]

/-- C5 witness: a concrete miss followed by a 500 response leaves the store
empty and returns the error. -/
theorem fetch_failure_propagates_cache_unchanged_witness :
    ((MemoryCache.new 10).get (cacheKey "test" 1)).1 = none ∧
    searchByTag { base_url := "http://mock", cache := memoryCacheImpl }
        (fun _ => .response 500 "server error") (fun _ => .error "bad")
        (MemoryCache.new 10) "test" 1 =
      (.error (.ApiError "server error"), MemoryCache.new 10,
       [.fetch (searchUrl "http://mock" "test" 1)]) :=
  ⟨by decide,
   fetch_failure_propagates_cache_unchanged "http://mock"
     (fun _ => .response 500 "server error") (fun _ => .error "bad")
     (MemoryCache.new 10) "test" 1 (.ApiError "server error") (by decide)
     (fetchStations_api_error _ _ _ 500 "server error" rfl (by decide))⟩

/-- C6 counterexample: with a capacity-0 in-memory cache (legal per the
degenerate case of C8), the empty result is stored via `set` but not
retained, so the subsequent identical call fetches again — its effect list
contains a fetch — refuting the claim as universally stated. -/
theorem empty_result_cached_and_served_cex :
    (searchByTag { base_url := "http://mock", cache := memoryCacheImpl }
        (fun _ => .response 200 "[]") (fun _ => .ok [])
        (MemoryCache.new 0) "test" 1).2.2 =
      [.fetch (searchUrl "http://mock" "test" 1),
       .cacheSet (cacheKey "test" 1)] ∧
    (searchByTag { base_url := "http://mock", cache := memoryCacheImpl }
        (fun _ => .response 200 "[]") (fun _ => .ok [])
        ((searchByTag { base_url := "http://mock", cache := memoryCacheImpl }
            (fun _ => .response 200 "[]") (fun _ => .ok [])
            (MemoryCache.new 0) "test" 1).2.1) "test" 1).2.2 =
      [.fetch (searchUrl "http://mock" "test" 1),
       .cacheSet (cacheKey "test" 1)] :=
  ⟨rfl, rfl⟩

/-- C6 (amended): a successful fetch stores the decoded sequence via `set`
even when it is empty: after a miss whose fetch decodes to the empty array,
the call returns the empty sequence and records a `cacheSet` of the key;
and provided the in-memory cache's capacity is at least 1, a second call
with identical arguments is served from the cache with no fetch at all
(its effect list is empty). -/
theorem empty_result_cached_and_served (base : String)
    (transport : String → TransportOutcome)
    (decode : String → Except String (List RadioStation)) (st : LruCache)
    (tag : String) (limit status : Nat) (body : String)
    (hcap : 1 ≤ st.capacity)
    (hmiss : (st.get (cacheKey tag limit)).1 = none)
    (ht : transport (searchUrl base tag limit) = .response status body)
    (hs : statusIsSuccess status = true)
    (hd : decode body = .ok []) :
    searchByTag { base_url := base, cache := memoryCacheImpl }
        transport decode st tag limit =
      (.ok [], st.put (cacheKey tag limit) [],
       [.fetch (searchUrl base tag limit), .cacheSet (cacheKey tag limit)]) ∧
    searchByTag { base_url := base, cache := memoryCacheImpl }
        transport decode (st.put (cacheKey tag limit) []) tag limit =
      (.ok [],
       ((st.put (cacheKey tag limit) []).get (cacheKey tag limit)).2, []) := by
  constructor
  · rw [searchByTag_miss_ok { base_url := base, cache := memoryCacheImpl }
      transport decode st tag limit [] hmiss
      (fetchStations_ok transport decode _ status body [] ht hs hd)]
    have h2 : ({ base_url := base, cache := memoryCacheImpl } :
        RadioBrowserClient LruCache).cache.get st (cacheKey tag limit) =
        (none, st) := LruCache.get_miss_eq hmiss
    rw [h2]
    rfl
  · exact searchByTag_hit { base_url := base, cache := memoryCacheImpl }
      transport decode (st.put (cacheKey tag limit) []) tag limit []
      (LruCache.get_put_fst (cacheKey tag limit) [] hcap)

/-- C6 witness: a concrete miss whose response is an empty JSON array; the
empty list is cached and the second call is a hit with no fetch. -/
theorem empty_result_cached_and_served_witness :
    (1 ≤ (MemoryCache.new 10).capacity ∧
     ((MemoryCache.new 10).get (cacheKey "test" 1)).1 = none) ∧
    (searchByTag { base_url := "http://mock", cache := memoryCacheImpl }
        (fun _ => .response 200 "[]") (fun _ => .ok [])
        (MemoryCache.new 10) "test" 1 =
      (.ok [], (MemoryCache.new 10).put (cacheKey "test" 1) [],
       [.fetch (searchUrl "http://mock" "test" 1),
        .cacheSet (cacheKey "test" 1)]) ∧
     searchByTag { base_url := "http://mock", cache := memoryCacheImpl }
        (fun _ => .response 200 "[]") (fun _ => .ok [])
        ((MemoryCache.new 10).put (cacheKey "test" 1) []) "test" 1 =
      (.ok [],
       (((MemoryCache.new 10).put (cacheKey "test" 1) []).get
         (cacheKey "test" 1)).2, [])) :=
  ⟨⟨by decide, by decide⟩,
   empty_result_cached_and_served "http://mock"
     (fun _ => .response 200 "[]") (fun _ => .ok [])
     (MemoryCache.new 10) "test" 1 200 "[]" (by decide) (by decide) rfl
     (by decide) rfl⟩

/-- C7 counterexample: with capacity 1, a `get` that has just refreshed the
sole key does not protect it — the next insertion of a distinct key evicts
exactly that freshly-accessed key, so the protection clause of the claim
fails as universally stated. -/
theorem lru_refresh_protection_cex :
    ((soloRockStore.get "search:rock:5").1 = some [] ∧
     ((soloRockStore.get "search:rock:5").2.put "search:jazz:5" []).entries.map
        Prod.fst = ["search:jazz:5"]) :=
  ⟨rfl, rfl⟩

/-- C7 (amended): the in-memory cache never holds more distinct keys than
its capacity after any operation sequence (keys stay pairwise distinct);
inserting a fresh key into a full cache evicts exactly the
least-recently-used entry; and a `get` on a present key refreshes its
recency and protects it from the next eviction provided at least one other
entry is present (with a single entry the refreshed key is itself the LRU
and is the one evicted). -/
theorem lru_bound_eviction_refresh :
    (∀ (capacity : Nat) (ops : List CacheOp),
      ((((MemoryCache.new capacity).run ops).entries.map Prod.fst).Nodup ∧
       ((MemoryCache.new capacity).run ops).entries.length ≤ capacity)) ∧
    (∀ (c : LruCache) (k : String) (v : List RadioStation),
      c.WF → c.entries.length = c.capacity → 0 < c.capacity →
      (∀ e ∈ c.entries, e.1 ≠ k) →
      (c.put k v).entries = (k, v) :: c.entries.dropLast) ∧
    (∀ (c : LruCache) (ka knew : String) (w v : List RadioStation),
      c.WF → (c.get ka).1 = some w → 2 ≤ c.entries.length →
      knew ≠ ka → knew ∉ c.entries.map Prod.fst →
      ka ∈ ((((c.get ka).2).put knew v).entries.map Prod.fst)) := by
  refine ⟨?_, ?_, ?_⟩
  · intro capacity ops
    have hwf := LruCache.run_WF ops (LruCache.new_WF capacity)
    have hcap := LruCache.run_capacity (LruCache.new capacity) ops
    refine ⟨hwf.1, ?_⟩
    have := hwf.2
    rw [hcap] at this
    exact this
  · intro c k v hwf hfull hpos hfresh
    exact LruCache.put_full_fresh k v hfull hpos hfresh
  · intro c ka knew w v hwf hhit hlen hne hfresh
    exact LruCache.get_then_put_keeps hwf hhit hlen knew v hne hfresh

/-- C7 witness: a capacity-2 cache holding two keys; inserting a third
evicts exactly the back entry, and a refreshed key survives the next
insertion. -/
theorem lru_bound_eviction_refresh_witness :
    ((twoKeyStore.put "k3" []).entries = [("k3", []), ("k1", [])]) ∧
    "k1" ∈ (((twoKeyStore.get "k1").2.put "k3" []).entries.map Prod.fst) :=
  ⟨lru_bound_eviction_refresh.2.1 twoKeyStore "k3" []
     ⟨by decide, by decide⟩ (by decide) (by decide) (by decide),
   lru_bound_eviction_refresh.2.2 twoKeyStore "k1" "k3" [] []
     ⟨by decide, by decide⟩ (by decide) (by decide) (by decide) (by decide)⟩

/-- C8: a `MemoryCache` constructed with capacity 0 is total on every
operation sequence: every `set` evicts immediately (the store never holds
an entry) and every subsequent `get` returns absent. -/
theorem zero_capacity_cache_safe :
    ∀ ops : List CacheOp,
      ((MemoryCache.new 0).run ops).entries = [] ∧
      ∀ k, (((MemoryCache.new 0).run ops).get k).1 = none := by
  have key : ∀ (ops : List CacheOp) (c : LruCache), c.capacity = 0 →
      c.entries = [] → (c.run ops).capacity = 0 ∧ (c.run ops).entries = [] := by
    intro ops
    induction ops with
    | nil => intro c h1 h2; exact ⟨h1, h2⟩
    | cons op rest ih =>
      intro c h1 h2
      have h3 := LruCache.apply_capacity c op
      exact ih (c.apply op) (by rw [h3, h1])
        (LruCache.apply_zero_empty op h1 h2)
  intro ops
  have h := key ops (MemoryCache.new 0) rfl rfl
  refine ⟨h.2, ?_⟩
  intro k
  unfold LruCache.get
  rw [h.2]
  simp

/-- C9 counterexample: with capacity 0 (the degenerate case C8 itself
makes legal), a `set` followed by an immediate `get` of the same key
returns absent, not the stored value, so the round-trip claim fails as
universally stated. -/
theorem set_get_round_trip_cex :
    ((((MemoryCache.new 0).put "k" [testStation]).get "k").1 = none) ∧
    ((((MemoryCache.new 0).put "k" [testStation]).get "k").1 ≠
      some [testStation]) :=
  ⟨rfl, by decide⟩

/-- C9 (amended): for every store of capacity at least 1, every key and
every station list (in any store state, whether or not the key was already
present), `set` followed by an immediate `get` of the same key returns
exactly the stored list — same elements in the same order, the previous
value replaced wholesale. -/
theorem set_get_round_trip (c : LruCache) (k : String) (v : List RadioStation)
    (hcap : 1 ≤ c.capacity) : ((c.put k v).get k).1 = some v :=
  LruCache.get_put_fst k v hcap

/-- C9 witness: replacing an existing entry wholesale with a different
(empty) list and reading it back. -/
theorem set_get_round_trip_witness :
    1 ≤ ({ capacity := 2, entries := [("k", [testStation])] } :
      LruCache).capacity ∧
    (((({ capacity := 2, entries := [("k", [testStation])] } :
      LruCache).put "k" []).get "k").1 = some []) :=
  ⟨by decide,
   set_get_round_trip { capacity := 2, entries := [("k", [testStation])] }
     "k" [] (by decide)⟩

/-- C10: on a cache miss the URL handed to the transport (the head of the
effect list) is exactly the raw concatenation of the base URL,
`/json/stations/search?tag=`, the tag verbatim (no percent-encoding or
escaping), `&limit=`, and the decimal rendering of the limit. -/
theorem request_url_verbatim {σ : Type} (client : RadioBrowserClient σ)
    (transport : String → TransportOutcome)
    (decode : String → Except String (List RadioStation)) (st : σ)
    (tag : String) (limit : Nat)
    (hmiss : (client.cache.get st (cacheKey tag limit)).1 = none) :
    (searchByTag client transport decode st tag limit).2.2.head? =
      some (.fetch (client.base_url ++ "/json/stations/search?tag=" ++ tag ++
        "&limit=" ++ natToDecimal limit)) := by
  cases hf : fetchStations transport decode (searchUrl client.base_url tag limit) with
  | error e =>
    rw [searchByTag_miss_error client transport decode st tag limit e hmiss hf]
    rfl
  | ok stations =>
    rw [searchByTag_miss_ok client transport decode st tag limit stations hmiss hf]
    rfl

/-- C10 witness: a tag containing `&`, `=` and a space is inserted into the
query string verbatim. -/
theorem request_url_verbatim_witness :
    (memoryCacheImpl.get (MemoryCache.new 100) (cacheKey "a&b=c d" 7)).1 =
      none ∧
    (searchByTag { base_url := "http://x", cache := memoryCacheImpl }
        (fun _ => .failure "down") (fun _ => .error "bad")
        (MemoryCache.new 100) "a&b=c d" 7).2.2.head? =
      some (.fetch "http://x/json/stations/search?tag=a&b=c d&limit=7") := by
  constructor
  · decide
  · rw [request_url_verbatim { base_url := "http://x", cache := memoryCacheImpl }
      (fun _ => .failure "down") (fun _ => .error "bad")
      (MemoryCache.new 100) "a&b=c d" 7 (by decide)]
    rfl
